import Mathlib

/-!
A shallow embedding of the StorageNet blockchain core (src/blockchain/chain.py
and src/blockchain/mempool.py) together with the collaborator components the
spec describes (Transaction, Block, Consensus), and proofs of the spec claims.

Conventions of the embedding:
* Python string hashes are modelled as naturals; the literal previous-hash
  marker `"0"` of the genesis block is modelled as the natural number `0`.
* The cryptographic hash is replaced by an executable injective-by-intent
  stand-in (`strEnc` / `Nat.pair` nesting); the nonce enters the block hash
  additively so that the proof-of-work search provably terminates.
* Fallible storage calls are modelled by an explicit `persistOk : Bool`
  input: `true` means the database write commits, `false` means it raises.
* Python's `time.time()` is modelled by an explicit `now : Int` input.
-/

namespace StorageNet

/-- Modelled from the spec (section 3, Transaction): transaction.py is not under
src/.  Fields follow the spec's data model; `tx_hash` is the content hash over
the value fields, `signature` is optional and absent for system transactions.
String hashes are modelled as naturals. -/
structure Transaction where
  sender : String
  recipient : String
  amount : Nat
  data : List (String × String)
  timestamp : Int
  tx_hash : Nat
  signature : Option Nat
deriving DecidableEq

/-- Modelled from the spec (section 4.1): an executable stand-in for the
canonical-encoding step of string fields fed to the hash. -/
def strEnc (s : String) : Nat :=
  s.toList.foldl (fun a c => a * 257 + c.toNat + 1) 1

/-- Modelled from the spec (section 4.1): canonical encoding of the opaque
key-to-value data mapping. -/
def dataEnc (d : List (String × String)) : Nat :=
  d.foldl (fun a p => Nat.pair a (Nat.pair (strEnc p.1) (strEnc p.2))) 1

/-- Modelled from the spec (section 4.1, calculate_hash): a pure deterministic
function of the value fields (sender, recipient, amount, data, timestamp),
excluding `tx_hash` and `signature`.  A stand-in for the cryptographic hash. -/
def Transaction.calculate_hash (tx : Transaction) : Nat :=
  Nat.pair (strEnc tx.sender)
    (Nat.pair (strEnc tx.recipient)
      (Nat.pair tx.amount (Nat.pair (dataEnc tx.data) tx.timestamp.natAbs)))

/-- Modelled from the spec (section 3): the Transaction constructor stamps the
content hash over the value fields; the signature is absent initially.  The
submission timestamp is taken as an explicit parameter (the Python constructor
reads the clock). -/
def mkTransaction (sender recipient : String) (amount : Nat)
    (data : List (String × String)) (timestamp : Int) : Transaction :=
  let tx : Transaction :=
    { sender := sender, recipient := recipient, amount := amount,
      data := data, timestamp := timestamp, tx_hash := 0, signature := none }
  { tx with tx_hash := tx.calculate_hash }

/-- Modelled from the spec (section 3, Block): block.py is not under src/.
`previous_hash` is the predecessor's hash (`0` models the genesis literal
`"0"`); `validator` and `block_signature` are absent on genesis. -/
structure Block where
  index : Nat
  timestamp : Int
  transactions : List Transaction
  previous_hash : Nat
  difficulty : Nat
  nonce : Nat
  hash : Nat
  validator : Option Nat
  block_signature : Option Nat
deriving DecidableEq

/-- Modelled from the spec (section 3): encoding of the ordered transaction
sequence inside the block header. -/
def txsEnc (txs : List Transaction) : Nat :=
  txs.foldl (fun a t => Nat.pair a t.calculate_hash) 1

/-- Modelled from the spec (section 3, Block invariant): the nonce-independent
part of the block header encoding. -/
def Block.headerBase (b : Block) : Nat :=
  Nat.pair b.index
    (Nat.pair b.timestamp.natAbs
      (Nat.pair (txsEnc b.transactions) (Nat.pair b.previous_hash b.difficulty)))

/-- Modelled from the spec (section 3, Block invariant): the block self-hash
over all header fields including the nonce.  The nonce enters additively so
the proof-of-work search below provably succeeds; the field `hash` itself is
excluded, as the spec requires. -/
def Block.calculate_hash (b : Block) : Nat :=
  b.headerBase + b.nonce

/-- Modelled from the spec (section 4.2): the difficulty predicate on a hash
value.  The spec allows any predicate derived from `difficulty` (threshold or
leading-zero form); the stand-in is divisibility by `2 ^ difficulty`. -/
def satisfiesDifficulty (h : Nat) (difficulty : Nat) : Bool :=
  h % 2 ^ difficulty == 0

/-- Modelled from the spec (section 3): the Block constructor as called by
chain.py: `Block(index, timestamp, transactions, previous_hash, difficulty)`
with nonce starting at 0, the self-hash computed, and no validator data. -/
def mkBlock (index : Nat) (timestamp : Int) (transactions : List Transaction)
    (previous_hash : Nat) (difficulty : Nat) : Block :=
  let b : Block :=
    { index := index, timestamp := timestamp, transactions := transactions,
      previous_hash := previous_hash, difficulty := difficulty,
      nonce := 0, hash := 0, validator := none, block_signature := none }
  { b with hash := b.calculate_hash }

/-- Modelled from the spec (section 4.2, proof_of_work): the fuelled nonce
search, trying successive nonce values from `n` and returning the first one
whose hash satisfies the difficulty predicate. -/
def powSearch (b : Block) : Nat → Nat → Nat
  | 0, n => n
  | fuel + 1, n =>
    if satisfiesDifficulty (Block.calculate_hash { b with nonce := n }) b.difficulty then n
    else powSearch b fuel (n + 1)

/-- Modelled from the spec (section 4.2, proof_of_work): search over nonce
values starting from 0, recomputing the hash each attempt, until the hash
satisfies the difficulty predicate; returns the block with `nonce` and `hash`
populated.  The fuel bound is sufficient for the stand-in hash (the nonce
`headerBase * (2 ^ difficulty - 1)` always succeeds, see pow lemmas below). -/
def proof_of_work (b : Block) : Block :=
  let n := powSearch b (b.headerBase * (2 ^ b.difficulty - 1) + 1) 0
  let mined : Block := { b with nonce := n }
  { mined with hash := mined.calculate_hash }

/-- Modelled from the spec (section 6, Signing credential): elliptic-curve keys
abstracted as naturals; the public key is derivable from the private key. -/
def publicKeyOf (sk : Nat) : Nat := sk + 1

/-- Modelled from the spec (section 4.1): producing a signature over a hash
with a private key, abstractly. -/
def signData (sk : Nat) (h : Nat) : Nat := Nat.pair (publicKeyOf sk) h

/-- Modelled from the spec (section 4.1): signature verification against a
public key and a hash, abstractly. -/
def verifySig (pub sig h : Nat) : Bool := sig == Nat.pair pub h

/-- Modelled from the spec (section 3): `sign_block` stores a signature over
the block's hash produced with the validator's private key. -/
def Block.sign_block (b : Block) (sk : Nat) : Block :=
  { b with block_signature := some (signData sk b.hash) }

/-- Modelled from the spec (section 4.2, verify_block): consensus.py is not
under src/.  Recomputes the hash, checks the difficulty predicate, checks the
link to the supplied predecessor, and checks the validator signature. -/
def verify_block (b pred : Block) : Bool :=
  b.hash == b.calculate_hash &&
  satisfiesDifficulty b.hash b.difficulty &&
  b.previous_hash == pred.hash &&
  (match b.validator, b.block_signature with
   | some v, some s => verifySig v s b.hash
   | _, _ => false)

/-- Modelled from the spec (section 4.2, is_chain_valid): the check applied to
every block after the first against its immediate predecessor. -/
def chainRest : Block → List Block → Bool
  | _, [] => true
  | prev, b :: bs => verify_block b prev && b.index == prev.index + 1 && chainRest b bs

/-- Modelled from the spec (section 4.2, is_chain_valid): block 0 must have
`previous_hash = 0` (the `"0"` literal) and `index = 0`; every subsequent block
must pass `verify_block` against its predecessor and continue the index
sequence.  The spec leaves the empty chain unspecified; every caller in
chain.py guards emptiness separately, and the model returns `false` (there is
no block 0 to check). -/
def is_chain_valid : List Block → Bool
  | [] => false
  | b0 :: rest => b0.previous_hash == 0 && b0.index == 0 && chainRest b0 rest

/-- Modelled from the spec (section 4.2, cumulative_difficulty): the sum of
`2 ^ difficulty` over the chain; the fork-choice weight. -/
def cumulative_difficulty (chain : List Block) : Nat :=
  (chain.map (fun b => 2 ^ b.difficulty)).sum

/-! Chain manager, translated from src/src/blockchain/chain.py.  The `self.chain`
field is passed explicitly; storage is modelled as the list of stored block
rows, a row being `none` when `get_block_by_index` fails to yield a block. -/

/-- chain.py `get_last_block`: `None` on an empty chain, else the final block. -/
def get_last_block (chain : List Block) : Option Block :=
  chain.getLast?

/-- chain.py `load_chain`, the loading loop: reads rows `0 .. block_count - 1`
in order and aborts with an empty result as soon as one row yields no block. -/
def collectLoaded : List (Option Block) → Option (List Block)
  | [] => some []
  | none :: _ => none
  | some b :: rest => (collectLoaded rest).map (fun c => b :: c)

/-- chain.py `load_chain` (lines 93-112): rebuilds the chain from storage;
returns `[]` when a block is missing, when the result is empty, or when
`Consensus.is_chain_valid` rejects it. -/
def load_chain (db : List (Option Block)) : List Block :=
  match collectLoaded db with
  | none => []
  | some chain => if chain.isEmpty then [] else if is_chain_valid chain then chain else []

/-- chain.py genesis transaction (lines 65-70): `Transaction(sender="0",
recipient="0", amount=0, data={"type": "genesis", ...})`.  The constructor's
clock read is modelled as timestamp 0 (its value is irrelevant here). -/
def genesis_tx : Transaction :=
  mkTransaction "0" "0" 0 [("type", "genesis"), ("message", "Initial block of the chain")] 0

/-- chain.py `_create_genesis_block` (lines 63-91): a block at index 0 with
timestamp 0, the single system transaction, previous hash `"0"`, the
configured difficulty, with proof-of-work run on it.  The storage save is
modelled as succeeding (the exception path re-raises and is outside the
non-exceptional model). -/
def _create_genesis_block (difficulty : Nat) : Block :=
  proof_of_work (mkBlock 0 0 [genesis_tx] 0 difficulty)

/-- chain.py `_initialize_new_chain` (lines 51-61): the chain becomes the
one-element list holding the genesis block. -/
def _initialize_new_chain (difficulty : Nat) : List Block :=
  [_create_genesis_block difficulty]

/-- Result of constructing the chain manager: the in-memory chain and whether
the destructive reset `_reset_blockchain` was executed. -/
structure InitResult where
  chain : List Block
  resetPerformed : Bool
deriving DecidableEq

/-- chain.py `Blockchain.__init__` (lines 14-36), non-exceptional path:
load the chain; if it is empty, initialize a new chain (no reset); otherwise,
if it is invalid, reset the database and initialize; otherwise keep it.
The `except` handler (reset + initialize on a raised storage error) is the
only other path to the reset and is outside this model. -/
def blockchain_init (db : List (Option Block)) (difficulty : Nat) : InitResult :=
  let loaded := load_chain db
  if loaded.isEmpty then
    { chain := _initialize_new_chain difficulty, resetPerformed := false }
  else if is_chain_valid loaded then
    { chain := loaded, resetPerformed := false }
  else
    { chain := _initialize_new_chain difficulty, resetPerformed := true }

/-- Observable side-effect attempts of `add_block`: running proof-of-work and
reaching the persistence call. -/
inductive ChainEvent where
  | powAttempted
  | persistAttempted
deriving DecidableEq

/-- Result of `add_block`: the in-memory chain after the call, the returned
value (`none` models Python's `None`), the candidate block that was built and
mined (ghost instrumentation, `none` when the call rejects before building),
and the side-effect attempts in order. -/
structure AddBlockResult where
  chain : List Block
  result : Option Block
  built : Option Block
  events : List ChainEvent
deriving DecidableEq

/-- chain.py `add_block` (lines 114-156): reject an empty batch; reject when
there is no last block; build the candidate at `last.index + 1` linked to
`last.hash`, run proof-of-work, set the validator public key and sign; then
persist and append — on a persistence failure (`persistOk = false`, modelling
the raised exception) return `None` with the in-memory chain untouched. -/
def add_block (chain : List Block) (difficulty : Nat) (transactions : List Transaction)
    (sk : Nat) (now : Int) (persistOk : Bool) : AddBlockResult :=
  if transactions.isEmpty then
    { chain := chain, result := none, built := none, events := [] }
  else
    match get_last_block chain with
    | none => { chain := chain, result := none, built := none, events := [] }
    | some last =>
      let mined := proof_of_work (mkBlock (last.index + 1) now transactions last.hash difficulty)
      let signed := Block.sign_block { mined with validator := some (publicKeyOf sk) } sk
      if persistOk then
        { chain := chain ++ [signed], result := some signed, built := some signed,
          events := [ChainEvent.powAttempted, ChainEvent.persistAttempted] }
      else
        { chain := chain, result := none, built := some signed,
          events := [ChainEvent.powAttempted, ChainEvent.persistAttempted] }

/-- chain.py `resolve_conflicts` (lines 168-186): the peer fetch is
unimplemented in the code — `new_chain` is assigned `None` and never updated. -/
def fetched_candidate : Option (List Block) := none

/-- chain.py `resolve_conflicts` (lines 168-186), the evaluation of a candidate
`new_chain` against the current chain: `if new_chain and
Consensus.is_chain_valid(new_chain)` (Python truthiness: `None` and the empty
list are falsy), then replace exactly when the candidate's cumulative
difficulty strictly exceeds the current chain's; in every other case the
current chain is kept and `False` is returned. -/
def resolve_conflicts_step (chain : List Block) (new_chain : Option (List Block)) :
    List Block × Bool :=
  let maxCumulativeDiff := cumulative_difficulty chain
  match new_chain with
  | none => (chain, false)
  | some nc =>
    if nc.isEmpty then (chain, false)
    else if is_chain_valid nc then
      if decide (maxCumulativeDiff < cumulative_difficulty nc) then (nc, true)
      else (chain, false)
    else (chain, false)

/-- chain.py `resolve_conflicts` as shipped: evaluates the (never-fetched)
candidate, so the current chain always remains authoritative. -/
def resolve_conflicts (chain : List Block) : List Block × Bool :=
  resolve_conflicts_step chain fetched_candidate

/-! Mempool, translated from src/src/blockchain/mempool.py.  The in-memory
`Dict[str, Transaction]` is modelled as an insertion-ordered association list
from tx_hash to Transaction (Python dicts preserve insertion order). -/

/-- mempool.py `_load_from_db` (lines 21-30): if the mempool table is absent,
return; otherwise execute `SELECT * FROM mempool` — the query's rows are never
fetched or inserted into the mapping, so nothing is loaded either way. -/
def _load_from_db (tableExists : Bool) (rows : List (Nat × Transaction)) :
    List (Nat × Transaction) :=
  if !tableExists then []
  else
    match rows with
    | _ => []

/-- State of the mempool: the in-memory mapping and the capacity bound. -/
structure MempoolState where
  transactions : List (Nat × Transaction)
  max_size : Nat
deriving DecidableEq

/-- mempool.py `Mempool.__init__` (lines 11-19): an empty mapping, capacity
1000, then `_load_from_db` (which inserts nothing); a missing table raises
`sqlite3.OperationalError`, which is caught, likewise leaving the mapping as
built so far. -/
def mempool_init (tableExists : Bool) (rows : List (Nat × Transaction)) : MempoolState :=
  { transactions := [] ++ _load_from_db tableExists rows, max_size := 1000 }

/-- Result of `add_transaction`: the mapping after the call, the returned
boolean, the broadcasts that were issued, and whether the database insert
committed. -/
structure AddTxResult where
  pool : List (Nat × Transaction)
  ok : Bool
  broadcasts : List Nat
  persisted : Bool
deriving DecidableEq

/-- mempool.py `add_transaction` (lines 32-78): reject on a falsy or mismatched
`tx_hash` (a falsy hash is modelled as 0), on a duplicate, or at capacity —
with no side effect.  Otherwise broadcast (the `hasattr` probe and the repeated
membership re-check both hold at this point), insert into the mapping, and
persist; a persistence failure (`persistOk = false`, modelling the raised
exception caught by the handler) returns `False` with the broadcast already
sent and the in-memory insertion still in place. -/
def add_transaction (pool : List (Nat × Transaction)) (max_size : Nat)
    (tx : Transaction) (persistOk : Bool) : AddTxResult :=
  if tx.tx_hash == 0 || tx.tx_hash != tx.calculate_hash then
    { pool := pool, ok := false, broadcasts := [], persisted := false }
  else if (pool.lookup tx.tx_hash).isSome then
    { pool := pool, ok := false, broadcasts := [], persisted := false }
  else if decide (max_size ≤ pool.length) then
    { pool := pool, ok := false, broadcasts := [], persisted := false }
  else
    let pool1 := pool ++ [(tx.tx_hash, tx)]
    if persistOk then
      { pool := pool1, ok := true, broadcasts := [tx.tx_hash], persisted := true }
    else
      { pool := pool1, ok := false, broadcasts := [tx.tx_hash], persisted := false }

/-- Comparison key of mempool.py `get_transactions`: ascending timestamp. -/
def tsLE (a b : Transaction) : Bool :=
  decide (a.timestamp ≤ b.timestamp)

/-- mempool.py `get_transactions` (lines 80-87): sort the mapping's values by
ascending timestamp (Python's `sorted` is stable, as is `mergeSort`) and take
the first `max_count`; the mapping itself is returned unchanged (second
component) — selection removes nothing. -/
def get_transactions (pool : List (Nat × Transaction)) (max_count : Nat) :
    List Transaction × List (Nat × Transaction) :=
  (((pool.map Prod.snd).mergeSort tsLE).take max_count, pool)

/-- mempool.py `remove_transactions` (lines 89-102): delete each listed hash
from the mapping (and the store); entries whose key is not listed remain, in
order — the per-hash deletion loop is the filter keeping unlisted keys. -/
def remove_transactions (pool : List (Nat × Transaction)) (tx_hashes : List Nat) :
    List (Nat × Transaction) :=
  pool.filter (fun p => !(tx_hashes.contains p.1))

/-- mempool.py `clear_expired` (lines 104-122): first collect the hashes of
entries with `now - timestamp > expiry_seconds`, then delete each collected
hash from the mapping (and the store).  Returns the mapping after the call and
the collected expired hashes. -/
def clear_expired (pool : List (Nat × Transaction)) (now : Int) (expiry_seconds : Int) :
    List (Nat × Transaction) × List Nat :=
  let expired := (pool.filter (fun p => decide (now - p.2.timestamp > expiry_seconds))).map Prod.fst
  (pool.filter (fun p => !(expired.contains p.1)), expired)

/-- The mempool representation invariant of the spec (section 3, Mempool):
unique keys and at most `max_size` entries. -/
def mempoolInv (pool : List (Nat × Transaction)) (max_size : Nat) : Prop :=
  (pool.map Prod.fst).Nodup ∧ pool.length ≤ max_size

/-- Concrete sample transaction used by concrete-input theorems. -/
def sampleTx : Transaction := mkTransaction "a" "b" 1 [] 0

/-- Concrete sample block used by concrete-input theorems. -/
def sampleBlock : Block := mkBlock 0 0 [] 0 0

/-- Concrete stored block with a broken genesis link (`previous_hash = 7`),
making any chain that starts with it invalid. -/
def corruptStoredBlock : Block := mkBlock 0 0 [] 7 0

/-- Concrete transaction with submission timestamp 0. -/
def txEarly : Transaction := mkTransaction "c" "d" 2 [] 0

/-- Concrete transaction with submission timestamp 100. -/
def txLate : Transaction := mkTransaction "e" "f" 3 [] 100

/-- Concrete mempool mapping holding `txEarly` and `txLate`. -/
def samplePool : List (Nat × Transaction) := [(1, txEarly), (2, txLate)]

/-! Helper lemmas about the proof-of-work search. -/

/-- The nonce-independent header encoding really ignores the nonce. -/
theorem headerBase_set_nonce (b : Block) (n : Nat) :
    Block.headerBase { b with nonce := n } = b.headerBase := rfl

/-- The nonce `headerBase * (2 ^ difficulty - 1)` always satisfies the
difficulty predicate: the resulting hash is `headerBase * 2 ^ difficulty`. -/
theorem pow_nonce_exists (b : Block) :
    satisfiesDifficulty
      (Block.calculate_hash { b with nonce := b.headerBase * (2 ^ b.difficulty - 1) })
      b.difficulty = true := by
  have h1 : (1 : Nat) ≤ 2 ^ b.difficulty := Nat.one_le_two_pow
  obtain ⟨m, hm⟩ := Nat.exists_eq_add_of_le h1
  have hcalc : Block.calculate_hash { b with nonce := b.headerBase * (2 ^ b.difficulty - 1) }
      = b.headerBase + b.headerBase * (2 ^ b.difficulty - 1) := rfl
  have hmul : b.headerBase + b.headerBase * (2 ^ b.difficulty - 1)
      = b.headerBase * 2 ^ b.difficulty := by
    rw [hm]
    have : 1 + m - 1 = m := by omega
    rw [this]
    ring
  simp [satisfiesDifficulty, hcalc, hmul, Nat.mul_mod_left]

/-- If some nonce within the remaining fuel satisfies the predicate, the fuelled
search returns a satisfying nonce. -/
theorem powSearch_finds (b : Block) : ∀ (fuel n : Nat),
    satisfiesDifficulty (Block.calculate_hash { b with nonce := n + fuel }) b.difficulty = true →
    satisfiesDifficulty (Block.calculate_hash { b with nonce := powSearch b (fuel + 1) n })
      b.difficulty = true := by
  intro fuel
  induction fuel with
  | zero =>
    intro n h
    have h0 : satisfiesDifficulty (Block.calculate_hash { b with nonce := n }) b.difficulty
        = true := by simpa using h
    simp [powSearch, h0]
  | succ f ih =>
    intro n h
    cases hc : satisfiesDifficulty (Block.calculate_hash { b with nonce := n }) b.difficulty with
    | true => simp [powSearch, hc]
    | false =>
      simp only [powSearch, hc, Bool.false_eq_true, if_false]
      exact ih (n + 1) (by rw [show n + 1 + f = n + (f + 1) by omega]; exact h)

/-- The mined block's hash satisfies the difficulty predicate for the block's
own difficulty: proof-of-work really ran. -/
theorem proof_of_work_spec (b : Block) :
    satisfiesDifficulty (proof_of_work b).hash (proof_of_work b).difficulty = true := by
  show satisfiesDifficulty
    (Block.calculate_hash
      { b with nonce := powSearch b (b.headerBase * (2 ^ b.difficulty - 1) + 1) 0 })
    b.difficulty = true
  exact powSearch_finds b (b.headerBase * (2 ^ b.difficulty - 1)) 0
    (by simpa using pow_nonce_exists b)

/-- Proof-of-work only populates `nonce` and `hash`; all other fields are kept. -/
theorem proof_of_work_frame (b : Block) :
    (proof_of_work b).index = b.index ∧
    (proof_of_work b).timestamp = b.timestamp ∧
    (proof_of_work b).transactions = b.transactions ∧
    (proof_of_work b).previous_hash = b.previous_hash ∧
    (proof_of_work b).difficulty = b.difficulty ∧
    (proof_of_work b).validator = b.validator ∧
    (proof_of_work b).block_signature = b.block_signature ∧
    (proof_of_work b).hash = Block.calculate_hash (proof_of_work b) :=
  ⟨rfl, rfl, rfl, rfl, rfl, rfl, rfl, rfl⟩

/-- The fresh genesis chain passes the chain validity check. -/
theorem genesis_chain_valid (difficulty : Nat) :
    is_chain_valid (_initialize_new_chain difficulty) = true := rfl

/-- `load_chain` only ever yields the empty list or a chain that passes
`is_chain_valid` (it validates before returning). -/
theorem load_chain_valid (db : List (Option Block)) :
    load_chain db = [] ∨ is_chain_valid (load_chain db) = true := by
  unfold load_chain
  cases h : collectLoaded db with
  | none => exact Or.inl rfl
  | some c =>
    by_cases he : c.isEmpty
    · exact Or.inl (by simp [he])
    · by_cases hv : is_chain_valid c = true
      · exact Or.inr (by simp [he, hv])
      · exact Or.inl (by simp [he, hv])

/-- C6: the genesis block created at initialization (difficulty 4, the
constructor default) has index 0, previous hash equal to the `"0"` literal
(modelled as 0), exactly one system transaction with sender `"0"`, zero amount
and the marker payload, has proof-of-work run on it (the stored hash is the
recomputed self-hash and satisfies the difficulty predicate), carries no
validator identity or signature, and is the sole member of the fresh chain. -/
theorem genesis_block_properties :
    (_create_genesis_block 4).index = 0 ∧
    (_create_genesis_block 4).previous_hash = 0 ∧
    (_create_genesis_block 4).transactions = [genesis_tx] ∧
    genesis_tx.sender = "0" ∧
    genesis_tx.amount = 0 ∧
    genesis_tx.data = [("type", "genesis"), ("message", "Initial block of the chain")] ∧
    (_create_genesis_block 4).difficulty = 4 ∧
    satisfiesDifficulty (_create_genesis_block 4).hash 4 = true ∧
    (_create_genesis_block 4).hash = Block.calculate_hash (_create_genesis_block 4) ∧
    (_create_genesis_block 4).validator = none ∧
    (_create_genesis_block 4).block_signature = none ∧
    _initialize_new_chain 4 = [_create_genesis_block 4] :=
  ⟨rfl, rfl, rfl, rfl, rfl, rfl, rfl,
   proof_of_work_spec (mkBlock 0 0 [genesis_tx] 0 4), rfl, rfl, rfl, rfl⟩

/-- C3 counterexample: with a persisted chain that is invalid (its single
stored block has `previous_hash = 7`, so `is_chain_valid` rejects it),
`load_chain` returns the empty list, and construction takes the empty-chain
branch: a fresh genesis chain is created but the destructive reset is NOT
performed — refuting the claim that an invalid persisted chain triggers a
destructive reset that drops all persisted state. -/
theorem init_invalid_chain_performs_no_reset :
    is_chain_valid [corruptStoredBlock] = false ∧
    load_chain [some corruptStoredBlock] = [] ∧
    (blockchain_init [some corruptStoredBlock] 0).resetPerformed = false := by
  refine ⟨by decide, by decide, by decide⟩

/-- C3 (amended): on the non-exceptional construction path, an empty or invalid
persisted chain makes the manager fall back to a fresh genesis chain WITHOUT a
destructive reset (`load_chain` already maps invalid chains to the empty list,
so the reset branch is never taken; the reset routine is reachable only from
the exception handler); startup always completes with an in-memory chain that
passes `is_chain_valid`. -/
theorem blockchain_init_no_reset_and_valid (db : List (Option Block)) (difficulty : Nat) :
    (blockchain_init db difficulty).resetPerformed = false ∧
    is_chain_valid (blockchain_init db difficulty).chain = true := by
  unfold blockchain_init
  rcases load_chain_valid db with h | h
  · simp [h, genesis_chain_valid]
  · by_cases he : (load_chain db).isEmpty
    · simp [he, genesis_chain_valid]
    · simp [he, h]

/-- C1: the candidate evaluation of `resolve_conflicts` replaces the current
chain exactly when the candidate is present, non-empty, valid per
`is_chain_valid`, and of strictly greater cumulative difficulty; on
replacement the whole sequence is swapped to the candidate, and in every other
case (missing, empty, invalid, or not strictly heavier candidate) the current
chain is returned unchanged with a negative result.  As shipped, the peer
fetch is unimplemented (`new_chain = None`), so `resolve_conflicts` itself
always keeps the current chain and returns `False`. -/
theorem resolve_conflicts_replaces_iff_valid_heavier (chain : List Block)
    (cand : Option (List Block)) :
    resolve_conflicts chain = (chain, false) ∧
    ((resolve_conflicts_step chain cand).2 = true ↔
      ∃ nc, cand = some nc ∧ nc ≠ [] ∧ is_chain_valid nc = true ∧
        cumulative_difficulty chain < cumulative_difficulty nc) ∧
    (∀ nc, cand = some nc → (resolve_conflicts_step chain cand).2 = true →
      (resolve_conflicts_step chain cand).1 = nc) ∧
    ((resolve_conflicts_step chain cand).2 = false →
      (resolve_conflicts_step chain cand).1 = chain) := by
  refine ⟨rfl, ?_, ?_, ?_⟩
  · cases cand with
    | none => simp [resolve_conflicts_step]
    | some nc =>
      by_cases he : nc.isEmpty
      · simp [resolve_conflicts_step, he, List.isEmpty_iff.mp he]
      · have hne : nc ≠ [] := by simpa [List.isEmpty_iff] using he
        by_cases hv : is_chain_valid nc = true
        · by_cases hd : cumulative_difficulty chain < cumulative_difficulty nc
          · simp [resolve_conflicts_step, he, hv, hd, hne]
          · simp [resolve_conflicts_step, he, hv, hd]
        · simp [resolve_conflicts_step, he, hv]
  · intro nc hc
    subst hc
    by_cases he : nc.isEmpty
    · simp [resolve_conflicts_step, he]
    · by_cases hv : is_chain_valid nc = true
      · by_cases hd : cumulative_difficulty chain < cumulative_difficulty nc
        · simp [resolve_conflicts_step, he, hv, hd]
        · simp [resolve_conflicts_step, he, hv, hd]
      · simp [resolve_conflicts_step, he, hv]
  · cases cand with
    | none => simp [resolve_conflicts_step]
    | some nc =>
      by_cases he : nc.isEmpty
      · simp [resolve_conflicts_step, he]
      · by_cases hv : is_chain_valid nc = true
        · by_cases hd : cumulative_difficulty chain < cumulative_difficulty nc
          · simp [resolve_conflicts_step, he, hv, hd]
          · simp [resolve_conflicts_step, he, hv, hd]
        · simp [resolve_conflicts_step, he, hv]

/-- C1 witness: evaluating the candidate logic at a concrete valid, strictly
heavier candidate against the empty current chain really replaces the whole
sequence and reports success. -/
theorem resolve_conflicts_replaces_iff_valid_heavier_witness :
    (resolve_conflicts_step [] (some [sampleBlock])).1 = [sampleBlock] ∧
    (resolve_conflicts_step [] (some [sampleBlock])).2 = true := by
  have h := resolve_conflicts_replaces_iff_valid_heavier [] (some [sampleBlock])
  have h2 : (resolve_conflicts_step [] (some [sampleBlock])).2 = true :=
    h.2.1.mpr ⟨[sampleBlock], rfl, by decide, by decide, by decide⟩
  exact ⟨h.2.2.1 [sampleBlock] rfl h2, h2⟩

/-- C4: when persistence fails, `add_block` leaves the in-memory chain exactly
as it was and reports failure by returning `None`; when persistence succeeds
and a block is returned, the chain is the old chain with exactly that block
appended — never a partial state change. -/
theorem add_block_persist_failure_leaves_chain (chain : List Block) (difficulty : Nat)
    (transactions : List Transaction) (sk : Nat) (now : Int) :
    (add_block chain difficulty transactions sk now false).chain = chain ∧
    (add_block chain difficulty transactions sk now false).result = none ∧
    (∀ b, (add_block chain difficulty transactions sk now true).result = some b →
      (add_block chain difficulty transactions sk now true).chain = chain ++ [b]) := by
  unfold add_block
  by_cases he : transactions.isEmpty
  · simp [he]
  · cases hl : get_last_block chain with
    | none => simp [he, hl]
    | some last => simp [he, hl]

/-- C4 witness: at a concrete one-block chain and a concrete transaction batch,
a persistence failure leaves the chain and returns `None`, and a persistence
success appends exactly the returned block. -/
theorem add_block_persist_failure_leaves_chain_witness :
    (add_block [sampleBlock] 0 [sampleTx] 0 0 false).chain = [sampleBlock] ∧
    (add_block [sampleBlock] 0 [sampleTx] 0 0 false).result = none ∧
    (add_block [sampleBlock] 0 [sampleTx] 0 0 true).chain =
      [sampleBlock] ++ [(add_block [sampleBlock] 0 [sampleTx] 0 0 true).built.getD sampleBlock] := by
  have h := add_block_persist_failure_leaves_chain [sampleBlock] 0 [sampleTx] 0 0
  exact ⟨h.1, h.2.1,
    h.2.2 ((add_block [sampleBlock] 0 [sampleTx] 0 0 true).built.getD sampleBlock) (by decide)⟩

/-- C5: an empty transaction batch, or a chain with no prior block, makes
`add_block` fail before any work — the chain is unchanged, `None` is returned,
and no proof-of-work and no persistence is attempted (empty event trace); for
every non-empty batch on a chain with a last block, the candidate block built
has index `last.index + 1` and `previous_hash = last.hash`. -/
theorem add_block_rejects_before_work_and_links (chain : List Block) (difficulty : Nat)
    (transactions : List Transaction) (sk : Nat) (now : Int) (persistOk : Bool) :
    (transactions = [] → add_block chain difficulty transactions sk now persistOk =
      { chain := chain, result := none, built := none, events := [] }) ∧
    (chain = [] → add_block chain difficulty transactions sk now persistOk =
      { chain := chain, result := none, built := none, events := [] }) ∧
    (∀ last, get_last_block chain = some last → transactions ≠ [] →
      ∃ nb, (add_block chain difficulty transactions sk now persistOk).built = some nb ∧
        nb.index = last.index + 1 ∧ nb.previous_hash = last.hash) := by
  refine ⟨?_, ?_, ?_⟩
  · intro h
    subst h
    simp [add_block]
  · intro h
    subst h
    by_cases he : transactions.isEmpty <;> simp [add_block, get_last_block, he]
  · intro last hl hne
    cases transactions with
    | nil => exact absurd rfl hne
    | cons t ts =>
      unfold add_block
      rw [hl]
      by_cases hp : persistOk <;>
        simp [hp, List.isEmpty_cons] <;>
        exact ⟨rfl, rfl⟩

/-- C5 witness: at concrete inputs, the empty batch is rejected with no work,
and a concrete non-empty batch on a one-block chain builds a candidate at
index 1 linked to the last block's hash. -/
theorem add_block_rejects_before_work_and_links_witness :
    (add_block [sampleBlock] 0 [] 0 0 true =
      { chain := [sampleBlock], result := none, built := none, events := [] }) ∧
    (∃ nb, (add_block [sampleBlock] 0 [sampleTx] 0 0 true).built = some nb ∧
      nb.index = sampleBlock.index + 1 ∧ nb.previous_hash = sampleBlock.hash) := by
  have h1 := add_block_rejects_before_work_and_links [sampleBlock] 0 [] 0 0 true
  have h2 := add_block_rejects_before_work_and_links [sampleBlock] 0 [sampleTx] 0 0 true
  exact ⟨h1.1 rfl, h2.2.2 sampleBlock (by decide) (by decide)⟩

/-- C2 counterexample: at the empty mempool, a well-formed fresh transaction,
and a failing persistence step, `add_transaction` returns `False` (admission
fails) — yet the in-memory mapping has been mutated (it now holds the
transaction) and the broadcast has been sent, while nothing was persisted.
This refutes all-or-nothing side effects, refutes that a persistence failure
leaves the in-memory mapping unmutated, and refutes that no broadcast happens
for a transaction whose admission fails. -/
theorem add_transaction_persist_failure_mutates_pool :
    (add_transaction [] 1000 sampleTx false).ok = false ∧
    (add_transaction [] 1000 sampleTx false).pool = [(sampleTx.tx_hash, sampleTx)] ∧
    (add_transaction [] 1000 sampleTx false).broadcasts = [sampleTx.tx_hash] ∧
    (add_transaction [] 1000 sampleTx false).persisted = false := by
  refine ⟨by decide, by decide, by decide, by decide⟩

/-- C2 (amended): when a validation check fails (falsy or mismatched hash,
duplicate, or pool at capacity) `add_transaction` performs no side effect at
all and returns `False`.  When validation passes, the transaction is broadcast
exactly once and inserted into the in-memory mapping before persistence is
attempted; if persistence then fails, the call returns `False` but the
broadcast and the in-memory insertion are not rolled back. -/
theorem add_transaction_effects (pool : List (Nat × Transaction)) (max_size : Nat)
    (tx : Transaction) (persistOk : Bool) :
    (tx.tx_hash = 0 ∨ tx.tx_hash ≠ tx.calculate_hash ∨
        (pool.lookup tx.tx_hash).isSome = true ∨ max_size ≤ pool.length →
      add_transaction pool max_size tx persistOk =
        { pool := pool, ok := false, broadcasts := [], persisted := false }) ∧
    (tx.tx_hash ≠ 0 → tx.tx_hash = tx.calculate_hash →
        (pool.lookup tx.tx_hash).isSome = false → pool.length < max_size →
      add_transaction pool max_size tx persistOk =
        { pool := pool ++ [(tx.tx_hash, tx)], ok := persistOk,
          broadcasts := [tx.tx_hash], persisted := persistOk }) := by
  constructor
  · intro h
    unfold add_transaction
    by_cases hc1 : (tx.tx_hash == 0 || tx.tx_hash != tx.calculate_hash) = true
    · simp [hc1]
    · have h0 : ¬tx.tx_hash = 0 ∧ tx.tx_hash = tx.calculate_hash := by
        simpa [not_or] using hc1
      rcases h with h | h | h | h
      · exact absurd h h0.1
      · exact absurd h0.2 h
      · simp [hc1, h]
      · by_cases hc2 : (pool.lookup tx.tx_hash).isSome = true
        · simp [hc1, hc2]
        · simp [hc1, hc2, h]
  · intro h0 hcalc hlook hlen
    unfold add_transaction
    have hc1 : (tx.tx_hash == 0 || tx.tx_hash != tx.calculate_hash) = false := by
      simp [← hcalc, h0]
    have hc3 : ¬max_size ≤ pool.length := Nat.not_le.mpr hlen
    cases persistOk <;> simp [hc1, hlook, hc3]

/-- C2 witness: applying the amended characterization at the empty pool, the
concrete sample transaction, and a failing persistence step. -/
theorem add_transaction_effects_witness :
    add_transaction [] 1000 sampleTx false =
      { pool := [(sampleTx.tx_hash, sampleTx)], ok := false,
        broadcasts := [sampleTx.tx_hash], persisted := false } :=
  (add_transaction_effects [] 1000 sampleTx false).2
    (by decide) (by decide) (by decide) (by decide)

/-- Entries of a mapping whose keys are pairwise distinct are determined by
their key. -/
theorem eq_of_fst_eq_of_nodup {pool : List (Nat × Transaction)}
    (h : (pool.map Prod.fst).Nodup) {p q : Nat × Transaction}
    (hp : p ∈ pool) (hq : q ∈ pool) (hfst : p.1 = q.1) : p = q := by
  induction pool with
  | nil => cases hp
  | cons a t ih =>
    rw [List.map_cons, List.nodup_cons] at h
    rcases List.mem_cons.mp hp with rfl | hp'
    · rcases List.mem_cons.mp hq with rfl | hq'
      · rfl
      · exact absurd (List.mem_map_of_mem Prod.fst hq') (hfst ▸ h.1)
    · rcases List.mem_cons.mp hq with rfl | hq'
      · exact absurd (List.mem_map_of_mem Prod.fst hp') (hfst ▸ h.1)
      · exact ih h.2 hp' hq'

/-- Under distinct keys, the two-phase deletion of `clear_expired` is the
filter keeping exactly the unexpired entries. -/
theorem clear_expired_eq_filter (pool : List (Nat × Transaction)) (now ttl : Int)
    (h : (pool.map Prod.fst).Nodup) :
    (clear_expired pool now ttl).1
      = pool.filter (fun p => !decide (now - p.2.timestamp > ttl)) := by
  apply List.filter_congr
  intro p hp
  by_cases hpred : now - p.2.timestamp > ttl
  · simp [List.contains, List.elem_iff, hpred]
    exact ⟨p.2, by simpa using hp, hpred⟩
  · simp [List.contains, List.elem_iff, hpred]
    intro x hx
    have hxp : (p.1, x) = p := eq_of_fst_eq_of_nodup h hx hp rfl
    have hx2 : x = p.2 := congrArg Prod.snd hxp
    simpa [hx2] using hpred

/-- C9: on a mapping with distinct keys (the mempool invariant),
`clear_expired` removes exactly the entries with `now - timestamp >
ttl_seconds` and leaves every other entry in place, and it is idempotent — a
second run at the same instant with no new arrivals removes nothing and
returns the mapping unchanged. -/
theorem clear_expired_exact_and_idempotent (pool : List (Nat × Transaction))
    (now ttl : Int) (h : (pool.map Prod.fst).Nodup) :
    (∀ p, p ∈ (clear_expired pool now ttl).1 ↔
      p ∈ pool ∧ ¬(now - p.2.timestamp > ttl)) ∧
    clear_expired (clear_expired pool now ttl).1 now ttl =
      ((clear_expired pool now ttl).1, []) := by
  have hc := clear_expired_eq_filter pool now ttl h
  have hsub : ((clear_expired pool now ttl).1.map Prod.fst).Nodup := by
    rw [hc]
    exact ((List.filter_sublist pool).map Prod.fst).nodup h
  constructor
  · intro p
    rw [hc, List.mem_filter]
    simp
  · have hexp2 : (clear_expired pool now ttl).1.filter
        (fun q => decide (now - q.2.timestamp > ttl)) = [] := by
      rw [hc, List.filter_filter]
      simp
    have hc2 := clear_expired_eq_filter (clear_expired pool now ttl).1 now ttl hsub
    apply Prod.ext
    · show (clear_expired (clear_expired pool now ttl).1 now ttl).1 = _
      rw [hc2, hc, List.filter_filter]
      simp
    · show ((clear_expired pool now ttl).1.filter
          (fun q => decide (now - q.2.timestamp > ttl))).map Prod.fst = []
      rw [hexp2]
      rfl

/-- C9 witness: applying the theorem at a concrete two-entry mapping whose
first entry is expired (timestamp 0 against now = 50, ttl = 10) and whose
second is not (timestamp 100). -/
theorem clear_expired_exact_and_idempotent_witness :
    ((1, txEarly) ∈ (clear_expired samplePool 50 10).1 ↔
      (1, txEarly) ∈ samplePool ∧ ¬((50 : Int) - txEarly.timestamp > 10)) ∧
    clear_expired (clear_expired samplePool 50 10).1 50 10 =
      ((clear_expired samplePool 50 10).1, []) :=
  ⟨(clear_expired_exact_and_idempotent samplePool 50 10 (by decide)).1 (1, txEarly),
   (clear_expired_exact_and_idempotent samplePool 50 10 (by decide)).2⟩

/-- C7: every mempool operation preserves the representation invariant
(pairwise-distinct `tx_hash` keys and at most `max_size` entries), a freshly
constructed mempool satisfies it, and admission at capacity is rejected with
no change to the mapping (reject-new, no eviction). -/
theorem mempool_invariant_preserved (pool : List (Nat × Transaction)) (max_size : Nat)
    (tx : Transaction) (persistOk : Bool) (tx_hashes : List Nat) (now ttl : Int)
    (tableExists : Bool) (rows : List (Nat × Transaction))
    (hinv : mempoolInv pool max_size) :
    mempoolInv (add_transaction pool max_size tx persistOk).pool max_size ∧
    mempoolInv (remove_transactions pool tx_hashes) max_size ∧
    mempoolInv (clear_expired pool now ttl).1 max_size ∧
    (max_size ≤ pool.length →
      (add_transaction pool max_size tx persistOk).pool = pool ∧
      (add_transaction pool max_size tx persistOk).ok = false) ∧
    mempoolInv (mempool_init tableExists rows).transactions
      (mempool_init tableExists rows).max_size := by
  obtain ⟨hnd, hlen⟩ := hinv
  refine ⟨?_, ?_, ?_, ?_, ?_⟩
  · unfold add_transaction
    by_cases hc1 : (tx.tx_hash == 0 || tx.tx_hash != tx.calculate_hash) = true
    · simpa [hc1] using ⟨hnd, hlen⟩
    · by_cases hc2 : (pool.lookup tx.tx_hash).isSome = true
      · simpa [hc1, hc2] using ⟨hnd, hlen⟩
      · by_cases hc3 : max_size ≤ pool.length
        · simpa [hc1, hc2, hc3] using ⟨hnd, hlen⟩
        · have hnotin : tx.tx_hash ∉ pool.map Prod.fst := by
            intro hcon
            obtain ⟨q, hq, hq1⟩ := List.mem_map.mp hcon
            exact hc2 (List.lookup_isSome_iff.mpr ⟨q, hq, by simp [hq1]⟩)
          have hgoal : mempoolInv (pool ++ [(tx.tx_hash, tx)]) max_size := by
            constructor
            · simp only [List.map_append, List.nodup_append]
              refine ⟨hnd, by simp, ?_⟩
              intro a ha hb
              simp only [List.map_cons, List.map_nil, List.mem_singleton] at hb
              exact hnotin (hb ▸ ha)
            · simp only [List.length_append, List.length_cons, List.length_nil]
              omega
          cases persistOk <;> simpa [hc1, hc2, hc3] using hgoal
  · exact ⟨((List.filter_sublist pool).map Prod.fst).nodup hnd,
      (List.length_filter_le _ pool).trans hlen⟩
  · exact ⟨((List.filter_sublist pool).map Prod.fst).nodup hnd,
      (List.length_filter_le _ pool).trans hlen⟩
  · intro hcap
    unfold add_transaction
    by_cases hc1 : (tx.tx_hash == 0 || tx.tx_hash != tx.calculate_hash) = true
    · simp [hc1]
    · by_cases hc2 : (pool.lookup tx.tx_hash).isSome = true
      · simp [hc1, hc2]
      · simp [hc1, hc2, hcap]
  · cases tableExists <;> simp [mempool_init, _load_from_db, mempoolInv]

/-- C7 witness: applying the preservation theorem at the empty mapping with
capacity 0, where the concrete admission is rejected with the mapping
unchanged. -/
theorem mempool_invariant_preserved_witness :
    mempoolInv (add_transaction [] 0 sampleTx true).pool 0 ∧
    (add_transaction [] 0 sampleTx true).pool = [] ∧
    (add_transaction [] 0 sampleTx true).ok = false := by
  have h := mempool_invariant_preserved [] 0 sampleTx true [] 0 0 true []
    ⟨List.nodup_nil, Nat.le_refl 0⟩
  exact ⟨h.1, (h.2.2.2.1 (Nat.le_refl 0)).1, (h.2.2.2.1 (Nat.le_refl 0)).2⟩

/-- C8: `get_transactions` returns at most `max_count` transactions, ordered by
ascending submission timestamp, all drawn from the pool's values, and the
mapping itself is left unchanged — selection removes nothing. -/
theorem get_transactions_fifo_bounded_frame (pool : List (Nat × Transaction))
    (max_count : Nat) :
    (get_transactions pool max_count).1.length ≤ max_count ∧
    List.Pairwise (fun a b : Transaction => a.timestamp ≤ b.timestamp)
      (get_transactions pool max_count).1 ∧
    (get_transactions pool max_count).1 ⊆ pool.map Prod.snd ∧
    (get_transactions pool max_count).2 = pool := by
  refine ⟨?_, ?_, ?_, rfl⟩
  · simp [get_transactions]
  · have hs : ((pool.map Prod.snd).mergeSort tsLE).Pairwise (fun a b => tsLE a b) :=
      List.sorted_mergeSort
        (fun a b c hab hbc => by
          simp only [tsLE, decide_eq_true_eq] at hab hbc ⊢
          omega)
        (fun a b => by
          simp only [tsLE, Bool.or_eq_true, decide_eq_true_eq]
          exact Int.le_total a.timestamp b.timestamp)
        (pool.map Prod.snd)
    have ht : (get_transactions pool max_count).1.Pairwise (fun a b => tsLE a b) :=
      hs.sublist (List.take_sublist max_count _)
    exact ht.imp (fun hab => by simpa [tsLE] using hab)
  · intro x hx
    have hx1 : x ∈ (pool.map Prod.snd).mergeSort tsLE := List.mem_of_mem_take hx
    exact (List.mem_mergeSort).mp hx1

/-- C10: a freshly constructed mempool always starts with an empty in-memory
mapping (capacity 1000): `_load_from_db` queries any persisted rows but never
inserts them, whether or not the mempool table exists, so persisted pending
transactions are not restored into memory. -/
theorem mempool_init_starts_empty (tableExists : Bool)
    (rows : List (Nat × Transaction)) :
    (mempool_init tableExists rows).transactions = [] ∧
    (mempool_init tableExists rows).max_size = 1000 := by
  cases tableExists <;> simp [mempool_init, _load_from_db]

end StorageNet
